import Mathlib

/-!
Shallow embedding of the in-memory telemetry store of the
Root-Cause-Analyzer repository (`src/app/ingestion/repository.py` and
`src/app/core/models.py`), together with theorems settling the frozen
claims about it.

Modelling conventions:
* `datetime` values become `Int` (only their linear order matters); a
  `timedelta(hours=h)` becomes the integer `h`, so all timestamps are in
  the same abstract unit.
* Python `dict` (which preserves insertion order) becomes an association
  list `List (String × α)`; updating an existing key keeps its position,
  inserting a new key appends at the end, exactly like CPython dicts.
* Python `set` becomes a duplicate-free `List String` grown by
  insert-if-absent.
* Floats (`duration_ms`, metric values) become `Int`: the store only
  copies and compares them, never does float arithmetic.
* Python truthiness of optional list arguments (`services or keys`,
  `if levels and ...`) is modelled explicitly: `None` and `[]` are both
  falsy.
-/

namespace RCA

/-- Log severity levels are carried as plain strings in the store
(`use_enum_values` in the pydantic models). -/
abbrev Level := String

/-- `LogEntry` from `app/core/models.py` (the analysis placeholder fields
are never touched by the store and are omitted). -/
structure LogEntry where
  id : String
  timestamp : Int
  service_name : String
  level : Level
deriving DecidableEq

/-- `MetricDataPoint` from `app/core/models.py`. -/
structure MetricDataPoint where
  id : String
  timestamp : Int
  service_name : String
  metric_name : String
  value : Int
deriving DecidableEq

/-- `SpanStatus` from `app/core/enums.py`. -/
inductive SpanStatus where
  | ok
  | error
  | unset
deriving DecidableEq

/-- `Span` from `app/core/models.py` (attributes/events omitted: the store
never reads them). -/
structure Span where
  trace_id : String
  span_id : String
  parent_span_id : Option String
  service_name : String
  operation_name : String
  start_time : Int
  end_time : Int
  duration_ms : Int
  status : SpanStatus
deriving DecidableEq

/-- `Trace` from `app/core/models.py`: stored fields including the three
derived ones computed by `model_post_init`. -/
structure Trace where
  trace_id : String
  spans : List Span
  root_service : Option String
  total_duration_ms : Int
  has_error : Bool
deriving DecidableEq

/-- `Trace.model_post_init`: construct a trace from its id and span list,
computing the derived fields exactly as the Python code does.  The root
service comes from the first parentless span found by the `for`/`break`
loop (`List.find?`), the total duration from `root_spans[0]` where
`root_spans` is the list comprehension filtering parentless spans, and
`has_error` from `any(...)`.  With an empty span list the pydantic field
defaults (`None`, `0.0`, `False`) are kept. -/
def Trace.make (trace_id : String) (spans : List Span) : Trace :=
  if spans.isEmpty then
    { trace_id := trace_id, spans := spans, root_service := none
    , total_duration_ms := 0, has_error := false }
  else
    let root_service := (spans.find? (fun s => s.parent_span_id.isNone)).map
      (fun s => s.service_name)
    let has_error := spans.any (fun s => decide (s.status = SpanStatus.error))
    let root_spans := spans.filter (fun s => s.parent_span_id.isNone)
    let total_duration : Int :=
      match root_spans with
      | [] => 0
      | r :: _ => r.duration_ms
    { trace_id := trace_id, spans := spans, root_service := root_service
    , total_duration_ms := total_duration, has_error := has_error }

/-! ### Insertion-ordered dictionaries (Python `dict` semantics) -/

/-- An insertion-ordered dictionary, as an association list. -/
abbrev Dict (α : Type) := List (String × α)

/-- `k in d`. -/
def dictHas (d : Dict α) (k : String) : Bool :=
  d.any (fun p => p.1 == k)

/-- `d.get(k)` / `d[k]` lookup: the first entry with the key. -/
def dictGet (d : Dict α) (k : String) : Option α :=
  (d.find? (fun p => p.1 == k)).map (fun p => p.2)

/-- `d[k] = v`: replace in place when the key exists (CPython keeps the
key's position), append at the end otherwise. -/
def dictSet (d : Dict α) (k : String) (v : α) : Dict α :=
  if dictHas d k then d.map (fun p => if p.1 == k then (k, v) else p)
  else d ++ [(k, v)]

/-- `del d[k]`. -/
def dictDel (d : Dict α) (k : String) : Dict α :=
  d.filter (fun p => p.1 != k)

/-- `list(d.keys())`, in insertion order. -/
def dictKeys (d : Dict α) : List String :=
  d.map (fun p => p.1)

/-- Python `set.add` on a duplicate-free list model. -/
def addService (ss : List String) (s : String) : List String :=
  if s ∈ ss then ss else ss ++ [s]

/-! ### The stable sort used by `sorted(..., key=lambda x: x.timestamp)`

Python's `sorted` is a stable sort by key; any stable sort computes the
same output, so we model it with stable insertion sort. -/

/-- Insert `x` before the first element whose key is `≥ key x`
(stable insertion). -/
def insertSorted (key : α → Int) (x : α) : List α → List α
  | [] => [x]
  | y :: ys => if key x ≤ key y then x :: y :: ys else y :: insertSorted key x ys

/-- Stable sort by an integer key (models Python `sorted(..., key=...)`). -/
def sortByKey (key : α → Int) : List α → List α
  | [] => []
  | x :: xs => insertSorted key x (sortByKey key xs)

/-! ### The telemetry store -/

/-- The mutable state of `TelemetryStore` (the lock is concurrency-only
and has no sequential semantics). -/
structure TelemetryStore where
  retention : Int
  max_logs : Nat
  max_metrics : Nat
  max_traces : Nat
  logs : Dict (List LogEntry)
  metrics : Dict (List MetricDataPoint)
  traces : Dict Trace
  logs_by_id : Dict LogEntry
  metrics_by_id : Dict MetricDataPoint
  services : List String
  logs_ingested : Nat
  metrics_ingested : Nat
  traces_ingested : Nat
deriving DecidableEq

/-- Python `x or default` for an optional integer argument: `None` and
`0` are both falsy and give the default. -/
def pyOrNat (x : Option Nat) (d : Nat) : Nat :=
  match x with
  | none => d
  | some n => if n = 0 then d else n

/-- Defaults from `app/config.py` (`Settings`). -/
def settings_telemetry_retention_hours : Nat := 24

/-- Default `max_logs_per_service` from `app/config.py`. -/
def settings_max_logs_per_service : Nat := 100000

/-- Default `max_metrics_per_service` from `app/config.py`. -/
def settings_max_metrics_per_service : Nat := 100000

/-- Default `max_traces` from `app/config.py`. -/
def settings_max_traces : Nat := 50000

/-- `TelemetryStore.__init__`: every argument defaults to `None`, and the
stored configuration is `arg or settings.<default>`. -/
def TelemetryStore.init
    (retention_hours : Option Nat := none)
    (max_logs_per_service : Option Nat := none)
    (max_metrics_per_service : Option Nat := none)
    (max_traces : Option Nat := none) : TelemetryStore :=
  { retention :=
      (pyOrNat retention_hours settings_telemetry_retention_hours : Nat)
  , max_logs := pyOrNat max_logs_per_service settings_max_logs_per_service
  , max_metrics :=
      pyOrNat max_metrics_per_service settings_max_metrics_per_service
  , max_traces := pyOrNat max_traces settings_max_traces
  , logs := [], metrics := [], traces := []
  , logs_by_id := [], metrics_by_id := []
  , services := []
  , logs_ingested := 0, metrics_ingested := 0, traces_ingested := 0 }

/-- The per-service log list (`self._logs[svc]`, a `defaultdict(list)`). -/
def TelemetryStore.logsFor (st : TelemetryStore) (svc : String) :
    List LogEntry :=
  (dictGet st.logs svc).getD []

/-- The per-service metric list. -/
def TelemetryStore.metricsFor (st : TelemetryStore) (svc : String) :
    List MetricDataPoint :=
  (dictGet st.metrics svc).getD []

/-- `TelemetryStore.add_log`: append to the per-service list, index by id,
register the service, bump the counter; then if the list exceeds
`max_logs`, pop its head and drop the popped entry from the by-id index. -/
def TelemetryStore.add_log (st : TelemetryStore) (log : LogEntry) :
    TelemetryStore × String :=
  let lst := st.logsFor log.service_name ++ [log]
  let st1 : TelemetryStore :=
    { st with
      logs := dictSet st.logs log.service_name lst
    , logs_by_id := dictSet st.logs_by_id log.id log
    , services := addService st.services log.service_name
    , logs_ingested := st.logs_ingested + 1 }
  if lst.length > st1.max_logs then
    let st2 : TelemetryStore :=
      { st1 with
        logs := dictSet st1.logs log.service_name lst.tail
      , logs_by_id :=
          match lst.head? with
          | some removed => dictDel st1.logs_by_id removed.id
          | none => st1.logs_by_id }
    (st2, log.id)
  else (st1, log.id)

/-- `TelemetryStore.add_logs_batch`. -/
def TelemetryStore.add_logs_batch (st : TelemetryStore)
    (logs : List LogEntry) : TelemetryStore × List String :=
  logs.foldl (fun acc log =>
    let r := acc.1.add_log log
    (r.1, acc.2 ++ [r.2])) (st, [])

/-- `TelemetryStore.get_log_by_id`. -/
def TelemetryStore.get_log_by_id (st : TelemetryStore) (log_id : String) :
    Option LogEntry :=
  dictGet st.logs_by_id log_id

/-- `TelemetryStore.add_metric` (symmetric to `add_log`). -/
def TelemetryStore.add_metric (st : TelemetryStore) (m : MetricDataPoint) :
    TelemetryStore × String :=
  let lst := st.metricsFor m.service_name ++ [m]
  let st1 : TelemetryStore :=
    { st with
      metrics := dictSet st.metrics m.service_name lst
    , metrics_by_id := dictSet st.metrics_by_id m.id m
    , services := addService st.services m.service_name
    , metrics_ingested := st.metrics_ingested + 1 }
  if lst.length > st1.max_metrics then
    let st2 : TelemetryStore :=
      { st1 with
        metrics := dictSet st1.metrics m.service_name lst.tail
      , metrics_by_id :=
          match lst.head? with
          | some removed => dictDel st1.metrics_by_id removed.id
          | none => st1.metrics_by_id }
    (st2, m.id)
  else (st1, m.id)

/-- `TelemetryStore.add_metrics_batch`. -/
def TelemetryStore.add_metrics_batch (st : TelemetryStore)
    (ms : List MetricDataPoint) : TelemetryStore × List String :=
  ms.foldl (fun acc m =>
    let r := acc.1.add_metric m
    (r.1, acc.2 ++ [r.2])) (st, [])

/-- `TelemetryStore.get_metric_by_id`. -/
def TelemetryStore.get_metric_by_id (st : TelemetryStore) (mid : String) :
    Option MetricDataPoint :=
  dictGet st.metrics_by_id mid

/-- `services or list(keys)`: a `None` or empty `services` argument falls
back to all keys of the per-service map. -/
def targetServices (keys : List String) (services : Option (List String)) :
    List String :=
  match services with
  | none => keys
  | some l => if l.isEmpty then keys else l

/-- `if levels and log.level not in levels: continue` — a `None` or empty
filter list passes everything. -/
def levelPass (levels : Option (List String)) (lv : String) : Bool :=
  match levels with
  | none => true
  | some l => l.isEmpty || l.contains lv

/-- The collection loop of `get_logs_in_window`: the matching entries in
traversal order (services in key order, each service's list in insertion
order), before the final sort. -/
def TelemetryStore.logWindowScan (st : TelemetryStore)
    (start finish : Int) (services levels : Option (List String)) :
    List LogEntry :=
  (targetServices (dictKeys st.logs) services).flatMap
    (fun svc => (st.logsFor svc).filter
      (fun log => decide (start ≤ log.timestamp)
        && decide (log.timestamp ≤ finish)
        && levelPass levels log.level))

/-- `TelemetryStore.get_logs_in_window`: scan the requested services'
lists, keep entries with `start <= ts <= end` passing the level filter,
and stably sort by timestamp. -/
def TelemetryStore.get_logs_in_window (st : TelemetryStore)
    (start finish : Int) (services : Option (List String) := none)
    (levels : Option (List String) := none) : List LogEntry :=
  sortByKey (fun x => x.timestamp) (st.logWindowScan start finish services levels)

/-- `TelemetryStore.get_error_logs_in_window`. -/
def TelemetryStore.get_error_logs_in_window (st : TelemetryStore)
    (start finish : Int) (services : Option (List String) := none) :
    List LogEntry :=
  st.get_logs_in_window start finish services
    (some ["ERROR", "FATAL", "CRITICAL"])

/-- `TelemetryStore.get_metric_series`: one service's metrics matching the
metric name inside the inclusive window, stably sorted by timestamp. -/
def TelemetryStore.get_metric_series (st : TelemetryStore)
    (service_name metric_name : String) (start finish : Int) :
    List MetricDataPoint :=
  let series := (st.metricsFor service_name).filter
    (fun m => m.metric_name == metric_name
      && decide (start ≤ m.timestamp) && decide (m.timestamp ≤ finish))
  sortByKey (fun x => x.timestamp) series

/-- The collection loop of `get_metrics_in_window`, before the sort. -/
def TelemetryStore.metricWindowScan (st : TelemetryStore)
    (start finish : Int) (services metric_names : Option (List String)) :
    List MetricDataPoint :=
  (targetServices (dictKeys st.metrics) services).flatMap
    (fun svc => (st.metricsFor svc).filter
      (fun m => decide (start ≤ m.timestamp)
        && decide (m.timestamp ≤ finish)
        && levelPass metric_names m.metric_name))

/-- `TelemetryStore.get_metrics_in_window`. -/
def TelemetryStore.get_metrics_in_window (st : TelemetryStore)
    (start finish : Int) (services : Option (List String) := none)
    (metric_names : Option (List String) := none) : List MetricDataPoint :=
  sortByKey (fun x => x.timestamp)
    (st.metricWindowScan start finish services metric_names)

/-- `TelemetryStore.add_trace`: store/overwrite at the trace id, register
span services, bump the counter; then if over `max_traces`, delete the
first key in traversal order (`next(iter(...))`). -/
def TelemetryStore.add_trace (st : TelemetryStore) (trace : Trace) :
    TelemetryStore × String :=
  let st1 : TelemetryStore :=
    { st with
      traces := dictSet st.traces trace.trace_id trace
    , services := trace.spans.foldl
        (fun acc sp => addService acc sp.service_name) st.services
    , traces_ingested := st.traces_ingested + 1 }
  let traces2 :=
    if st1.traces.length > st1.max_traces then
      match st1.traces.head? with
      | some oldest => dictDel st1.traces oldest.1
      | none => st1.traces
    else st1.traces
  ({ st1 with traces := traces2 }, trace.trace_id)

/-- `TelemetryStore.get_trace_by_id`. -/
def TelemetryStore.get_trace_by_id (st : TelemetryStore) (tid : String) :
    Option Trace :=
  dictGet st.traces tid

/-- `max(trace.spans, key=lambda s: s.end_time).end_time`, as the maximum
end time of a span list (`none` for an empty list). -/
def maxEnd : List Span → Option Int
  | [] => none
  | s :: rest =>
    match maxEnd rest with
    | none => some s.end_time
    | some m => some (max s.end_time m)

/-- The per-family removal counts returned by `cleanup_old_data`. -/
structure RemovedCounts where
  logs : Nat
  metrics : Nat
  traces : Nat
deriving DecidableEq

/-- Total number of entries in a per-service map. -/
def sumLens (d : Dict (List α)) : Nat :=
  (d.map (fun p => p.2.length)).sum

/-- The sweep condition of `cleanup_old_data` for one trace: it has spans
and the latest span end time is strictly before the cutoff. -/
def sweepTrace (cutoff : Int) (t : Trace) : Bool :=
  !t.spans.isEmpty &&
    (match maxEnd t.spans with
     | some m => decide (m < cutoff)
     | none => false)

/-- `TelemetryStore.cleanup_old_data` invoked at time `now`
(`cutoff = now - retention`): per service keep only entries with
`timestamp > cutoff`; delete every trace whose latest span end time is
strictly before the cutoff (traces without spans are kept).  The by-id
indexes are NOT touched by the Python code. -/
def TelemetryStore.cleanup_old_data (st : TelemetryStore) (now : Int) :
    TelemetryStore × RemovedCounts :=
  let cutoff := now - st.retention
  let newLogs := st.logs.map
    (fun p => (p.1, p.2.filter (fun log => decide (log.timestamp > cutoff))))
  let newMetrics := st.metrics.map
    (fun p => (p.1, p.2.filter (fun m => decide (m.timestamp > cutoff))))
  let traces_to_remove : List String :=
    (st.traces.filter (fun p => sweepTrace cutoff p.2)).map (fun p => p.1)
  let newTraces :=
    st.traces.filter (fun p => !(decide (p.1 ∈ traces_to_remove)))
  ( { st with logs := newLogs, metrics := newMetrics, traces := newTraces }
  , { logs := sumLens st.logs - sumLens newLogs
    , metrics := sumLens st.metrics - sumLens newMetrics
    , traces := traces_to_remove.length } )

/-- The snapshot returned by `get_stats`. -/
structure Stats where
  logs_ingested : Nat
  metrics_ingested : Nat
  traces_ingested : Nat
  services_count : Nat
  logs_stored : Nat
  metrics_stored : Nat
  traces_stored : Nat
deriving DecidableEq

/-- `TelemetryStore.get_stats`. -/
def TelemetryStore.get_stats (st : TelemetryStore) : Stats :=
  { logs_ingested := st.logs_ingested
  , metrics_ingested := st.metrics_ingested
  , traces_ingested := st.traces_ingested
  , services_count := st.services.length
  , logs_stored := sumLens st.logs
  , metrics_stored := sumLens st.metrics
  , traces_stored := st.traces.length }

/-- `TelemetryStore.clear`: empties the three collections, both by-id
indexes and the service registry; the stats counters are untouched. -/
def TelemetryStore.clear (st : TelemetryStore) : TelemetryStore :=
  { st with
    logs := [], metrics := [], traces := []
  , logs_by_id := [], metrics_by_id := []
  , services := [] }

/-! ### Specification-side helper -/

/-- The suffix of the `n` most recent entries of a list (all of it when it
is shorter than `n`).  Used to state the capacity invariant. -/
def takeLast (n : Nat) (l : List α) : List α :=
  l.drop (l.length - n)

/-! ### Concrete inputs used by witnesses and counterexamples -/

/-- A log with timestamp 0 used to exercise the retention sweep. -/
def sweptLog : LogEntry :=
  { id := "L1", timestamp := 0, service_name := "svc", level := "INFO" }

/-- A metric with timestamp 0 used to exercise the retention sweep. -/
def sweptMetric : MetricDataPoint :=
  { id := "M1", timestamp := 0, service_name := "svc"
  , metric_name := "cpu", value := 7 }

/-- Store with retention 1 holding `sweptLog` and `sweptMetric`. -/
def sweepStore : TelemetryStore :=
  ((((TelemetryStore.init (some 1)).add_log sweptLog).1).add_metric
    sweptMetric).1

/-- First log of the sort-stability scenario: service "b", timestamp 10. -/
def stLog1 : LogEntry :=
  { id := "1", timestamp := 10, service_name := "b", level := "INFO" }

/-- Second log of the sort-stability scenario: service "a", timestamp 10. -/
def stLog2 : LogEntry :=
  { id := "2", timestamp := 10, service_name := "a", level := "INFO" }

/-- Third log of the sort-stability scenario: service "b", timestamp 10. -/
def stLog3 : LogEntry :=
  { id := "3", timestamp := 10, service_name := "b", level := "INFO" }

/-- Store holding `stLog1`, `stLog2`, `stLog3` appended in that order. -/
def stabilityStore : TelemetryStore :=
  ((((TelemetryStore.init).add_log stLog1).1.add_log stLog2).1.add_log
    stLog3).1

/-- Trace "A" of the trace-cap scenario. -/
def trA : Trace := Trace.make "A" []

/-- Trace "B" of the trace-cap scenario. -/
def trB : Trace := Trace.make "B" []

/-- Trace "C" of the trace-cap scenario. -/
def trC : Trace := Trace.make "C" []

/-- Store with trace cap 2 holding traces "A" and "B" in that order. -/
def storeAB : TelemetryStore :=
  (((TelemetryStore.init none none none (some 2)).add_trace trA).1.add_trace
    trB).1

/-- Parentless root span with duration 500 for service "api". -/
def rootSpan : Span :=
  { trace_id := "t", span_id := "r", parent_span_id := none
  , service_name := "api", operation_name := "op", start_time := 0
  , end_time := 500, duration_ms := 500, status := SpanStatus.ok }

/-- Child of `rootSpan` with error status. -/
def childSpan : Span :=
  { trace_id := "t", span_id := "c", parent_span_id := some "r"
  , service_name := "db", operation_name := "op2", start_time := 10
  , end_time := 100, duration_ms := 90, status := SpanStatus.error }

/-- A log at timestamp 5 for the window-bound witness. -/
def boundLog : LogEntry :=
  { id := "bl", timestamp := 5, service_name := "s", level := "INFO" }

/-- A metric at timestamp 5 for the window-bound witness. -/
def boundMetric : MetricDataPoint :=
  { id := "bm", timestamp := 5, service_name := "s"
  , metric_name := "cpu", value := 1 }

/-- Store holding `boundLog` and `boundMetric`. -/
def boundStore : TelemetryStore :=
  (((TelemetryStore.init).add_log boundLog).1.add_metric boundMetric).1

/-- `sweepStore` extended with the two-span trace "t" (latest span end
time 500), used by the sweep witness. -/
def sweepStoreT : TelemetryStore :=
  (sweepStore.add_trace (Trace.make "t" [rootSpan, childSpan])).1

/-! ### Dictionary lemmas -/

theorem dictHas_iff_mem_keys (d : Dict α) (k : String) :
    dictHas d k = true ↔ k ∈ dictKeys d := by
  constructor
  · intro h
    simp only [dictHas, List.any_eq_true, beq_iff_eq] at h
    rcases h with ⟨p, hp, he⟩
    exact List.mem_map.mpr ⟨p, hp, he⟩
  · intro h
    rcases List.mem_map.mp h with ⟨p, hp, he⟩
    simp only [dictHas, List.any_eq_true, beq_iff_eq]
    exact ⟨p, hp, he⟩

theorem dictGet_cons_pos {p : String × α} {d : Dict α} {q : String}
    (h : p.1 = q) : dictGet (p :: d) q = some p.2 := by
  unfold dictGet
  rw [List.find?_cons_of_pos _ (by simp [h])]
  rfl

theorem dictGet_cons_neg {p : String × α} {d : Dict α} {q : String}
    (h : p.1 ≠ q) : dictGet (p :: d) q = dictGet d q := by
  unfold dictGet
  rw [List.find?_cons_of_neg _ (by simp [h])]

theorem dictSet_cons_ne {p : String × α} {d : Dict α} {k : String} (v : α)
    (h : p.1 ≠ k) : dictSet (p :: d) k v = p :: dictSet d k v := by
  have hh : dictHas (p :: d) k = dictHas d k := by
    simp [dictHas, h]
  by_cases hd : dictHas d k = true
  · simp [dictSet, hh, hd, h]
  · simp [dictSet, hh, hd]

theorem dictSet_cons_eq {p : String × α} {d : Dict α} {k : String} (v : α)
    (h : p.1 = k) :
    dictSet (p :: d) k v
      = (k, v) :: d.map (fun q => if q.1 == k then (k, v) else q) := by
  have hh : dictHas (p :: d) k = true := by
    simp [dictHas, h]
  simp [dictSet, hh, h]

theorem dictGet_dictSet_self (d : Dict α) (k : String) (v : α) :
    dictGet (dictSet d k v) k = some v := by
  induction d with
  | nil => simp [dictSet, dictHas, dictGet, List.find?]
  | cons p d ih =>
    by_cases h : p.1 = k
    · rw [dictSet_cons_eq v h]
      exact dictGet_cons_pos rfl
    · rw [dictSet_cons_ne v h]
      rw [dictGet_cons_neg h]
      exact ih

theorem dictGet_map_update_ne (d : Dict α) {k q : String} (v : α)
    (h : q ≠ k) :
    dictGet (d.map (fun p => if p.1 == k then (k, v) else p)) q
      = dictGet d q := by
  induction d with
  | nil => rfl
  | cons p d ih =>
    simp only [List.map_cons]
    by_cases hp : p.1 = k
    · have hb : (p.1 == k) = true := by simpa using hp
      simp only [hb, if_true]
      rw [dictGet_cons_neg (show (k, v).1 ≠ q from Ne.symm h),
        dictGet_cons_neg (by rw [hp]; exact Ne.symm h)]
      exact ih
    · have hb : (p.1 == k) = false := by simpa using hp
      simp only [hb, Bool.false_eq_true, if_false]
      by_cases hpq : p.1 = q
      · rw [dictGet_cons_pos hpq, dictGet_cons_pos hpq]
      · rw [dictGet_cons_neg hpq, dictGet_cons_neg hpq]
        exact ih

theorem dictGet_append_single_ne (d : Dict α) {k q : String} (v : α)
    (h : q ≠ k) : dictGet (d ++ [(k, v)]) q = dictGet d q := by
  induction d with
  | nil =>
    rw [List.nil_append]
    exact dictGet_cons_neg (Ne.symm h)
  | cons p d ih =>
    by_cases hpq : p.1 = q
    · rw [List.cons_append, dictGet_cons_pos hpq, dictGet_cons_pos hpq]
    · rw [List.cons_append, dictGet_cons_neg hpq, dictGet_cons_neg hpq]
      exact ih

theorem dictGet_dictSet_ne (d : Dict α) {k q : String} (v : α)
    (h : q ≠ k) : dictGet (dictSet d k v) q = dictGet d q := by
  by_cases hd : dictHas d k = true
  · simp only [dictSet, hd, if_true]
    exact dictGet_map_update_ne d v h
  · simp only [dictSet, hd, if_false, Bool.false_eq_true]
    exact dictGet_append_single_ne d v h

theorem dictGet_map_values (d : Dict α) (f : α → β) (k : String) :
    dictGet (d.map (fun p => (p.1, f p.2))) k = (dictGet d k).map f := by
  induction d with
  | nil => rfl
  | cons p d ih =>
    by_cases hp : p.1 = k
    · simp only [List.map_cons]
      rw [dictGet_cons_pos hp, dictGet_cons_pos (by simpa using hp)]
      rfl
    · simp only [List.map_cons]
      rw [dictGet_cons_neg hp, dictGet_cons_neg (by simpa using hp)]
      exact ih

theorem mem_of_dictGet_eq_some {d : Dict α} {k : String} {v : α}
    (h : dictGet d k = some v) : (k, v) ∈ d := by
  induction d with
  | nil => simp [dictGet] at h
  | cons p d ih =>
    by_cases hp : p.1 = k
    · rw [dictGet_cons_pos hp] at h
      have hpv : p = (k, v) := by
        cases p
        simp_all
      rw [← hpv]
      exact List.mem_cons_self _ _
    · rw [dictGet_cons_neg hp] at h
      exact List.mem_cons_of_mem _ (ih h)

theorem dictGet_eq_some_of_mem {d : Dict α} {k : String} {v : α}
    (hnd : (dictKeys d).Nodup) (hm : (k, v) ∈ d) :
    dictGet d k = some v := by
  induction d with
  | nil => simp at hm
  | cons p d ih =>
    simp only [dictKeys, List.map_cons, List.nodup_cons] at hnd
    rcases List.mem_cons.mp hm with he | hm2
    · rw [dictGet_cons_pos (by rw [← he])]
      rw [← he]
    · have hp : p.1 ≠ k := by
        intro hk
        exact hnd.1 (hk ▸ (List.mem_map.mpr ⟨(k, v), hm2, rfl⟩))
      rw [dictGet_cons_neg hp]
      exact ih hnd.2 hm2

theorem dictGet_some_iff {d : Dict α} {k : String} {v : α}
    (hnd : (dictKeys d).Nodup) :
    dictGet d k = some v ↔ (k, v) ∈ d :=
  ⟨mem_of_dictGet_eq_some, dictGet_eq_some_of_mem hnd⟩

/-! ### Stable-sort lemmas -/

theorem insertSorted_perm (key : α → Int) (x : α) (l : List α) :
    List.Perm (insertSorted key x l) (x :: l) := by
  induction l with
  | nil => exact List.Perm.refl _
  | cons y ys ih =>
    unfold insertSorted
    split
    · exact List.Perm.refl _
    · exact (List.Perm.cons y ih).trans (List.Perm.swap x y ys)

theorem sortByKey_perm (key : α → Int) (l : List α) :
    List.Perm (sortByKey key l) l := by
  induction l with
  | nil => exact List.Perm.refl _
  | cons x xs ih =>
    exact (insertSorted_perm key x (sortByKey key xs)).trans
      (List.Perm.cons x ih)

theorem mem_sortByKey {key : α → Int} {l : List α} {a : α} :
    a ∈ sortByKey key l ↔ a ∈ l :=
  (sortByKey_perm key l).mem_iff

theorem pairwise_insertSorted {key : α → Int} {x : α} {l : List α}
    (h : l.Pairwise (fun a b => key a ≤ key b)) :
    (insertSorted key x l).Pairwise (fun a b => key a ≤ key b) := by
  induction l with
  | nil => simp [insertSorted]
  | cons y ys ih =>
    rcases List.pairwise_cons.mp h with ⟨hy, hys⟩
    unfold insertSorted
    split
    · case isTrue hle =>
      refine List.pairwise_cons.mpr ⟨?_, h⟩
      intro b hb
      rcases List.mem_cons.mp hb with rfl | hb2
      · exact hle
      · exact le_trans hle (hy b hb2)
    · case isFalse hgt =>
      refine List.pairwise_cons.mpr ⟨?_, ih hys⟩
      intro b hb
      rcases List.mem_cons.mp ((insertSorted_perm key x ys).mem_iff.mp hb)
        with rfl | hb2
      · exact le_of_lt (lt_of_not_le hgt)
      · exact hy b hb2

theorem pairwise_sortByKey (key : α → Int) (l : List α) :
    (sortByKey key l).Pairwise (fun a b => key a ≤ key b) := by
  induction l with
  | nil => simp [sortByKey]
  | cons x xs ih => exact pairwise_insertSorted ih

theorem filter_insertSorted_key (key : α → Int) (c : Int) (x : α)
    (l : List α) :
    (insertSorted key x l).filter (fun a => decide (key a = c))
      = (x :: l).filter (fun a => decide (key a = c)) := by
  induction l with
  | nil => rfl
  | cons y ys ih =>
    unfold insertSorted
    split
    · rfl
    · case isFalse hgt =>
      have hyx : key y < key x := lt_of_not_le hgt
      by_cases hx : key x = c
      · have hy : ¬ key y = c := by
          intro hc
          rw [hc, ← hx] at hyx
          exact lt_irrefl _ hyx
        simp only [List.filter_cons, decide_eq_true_eq, hx, hy, if_true,
          if_false, decide_True, decide_False]
        simpa [List.filter_cons, hx, hy] using ih
      · simp only [List.filter_cons, decide_eq_true_eq, hx, if_false,
          decide_False]
        by_cases hy : key y = c
        · simp only [hy, decide_True, if_true]
          simpa [List.filter_cons, hx] using ih
        · simp only [hy, decide_False, if_false]
          simpa [List.filter_cons, hx] using ih

theorem filter_sortByKey_key (key : α → Int) (c : Int) (l : List α) :
    (sortByKey key l).filter (fun a => decide (key a = c))
      = l.filter (fun a => decide (key a = c)) := by
  induction l with
  | nil => rfl
  | cons x xs ih =>
    have h1 := filter_insertSorted_key key c x (sortByKey key xs)
    rw [sortByKey, h1, List.filter_cons, List.filter_cons, ih]

/-! ### takeLast lemmas -/

theorem length_takeLast (n : Nat) (l : List α) :
    (takeLast n l).length = min l.length n := by
  simp only [takeLast, List.length_drop]
  omega

theorem takeLast_nil (n : Nat) : takeLast n ([] : List α) = [] := by
  simp [takeLast]

theorem takeLast_zero (l : List α) : takeLast 0 l = [] := by
  simp [takeLast, List.drop_length]

theorem takeLast_append (n : Nat) (f : List α) (x : α) :
    takeLast n (f ++ [x])
      = (if (takeLast n f ++ [x]).length > n
         then (takeLast n f ++ [x]).tail
         else takeLast n f ++ [x]) := by
  rcases Nat.eq_zero_or_pos n with hn | hn
  · subst hn
    simp [takeLast_zero, takeLast, List.drop_length]
  · by_cases hlt : f.length < n
    · have h0 : f.length - n = 0 := by omega
      have h1 : f.length + 1 - n = 0 := by omega
      have hle : ¬ (takeLast n f ++ [x]).length > n := by
        simp only [List.length_append, length_takeLast, List.length_cons,
          List.length_nil]
        omega
      simp only [hle, if_false]
      simp [takeLast, List.length_append, h0, h1]
    · have hnf : n ≤ f.length := by omega
      have hlen : (takeLast n f ++ [x]).length = n + 1 := by
        simp only [List.length_append, length_takeLast, List.length_cons,
          List.length_nil]
        omega
      have hif : (takeLast n f ++ [x]).length > n := by omega
      simp only [hif, if_true]
      have h2 : f.length + 1 - n = (f.length - n) + 1 := by omega
      have h3 : (f.length - n) + 1 ≤ f.length := by omega
      calc takeLast n (f ++ [x])
          = (f ++ [x]).drop (f.length + 1 - n) := by
            simp [takeLast, List.length_append]
        _ = f.drop ((f.length - n) + 1) ++ [x] := by
            rw [h2, List.drop_append_of_le_length h3]
        _ = (f.drop (f.length - n)).tail ++ [x] := by
            have ht : (f.drop (f.length - n)).tail
                = f.drop ((f.length - n) + 1) := by
              rw [← List.drop_one, List.drop_drop, Nat.add_comm]
            rw [ht]
        _ = (takeLast n f ++ [x]).tail := by
            have hne : takeLast n f ≠ [] := by
              intro hc
              have hlen0 := congrArg List.length hc
              rw [length_takeLast] at hlen0
              simp only [List.length_nil] at hlen0
              omega
            rw [List.tail_append_of_ne_nil hne]
            rfl

/-! ### Single-append lemmas for logs and metrics -/

theorem max_logs_add_log (st : TelemetryStore) (x : LogEntry) :
    ((st.add_log x).1).max_logs = st.max_logs := by
  unfold TelemetryStore.add_log
  dsimp only
  split <;> rfl

theorem max_metrics_add_metric (st : TelemetryStore) (x : MetricDataPoint) :
    ((st.add_metric x).1).max_metrics = st.max_metrics := by
  unfold TelemetryStore.add_metric
  dsimp only
  split <;> rfl

theorem logsFor_add_log (st : TelemetryStore) (x : LogEntry) (svc : String) :
    ((st.add_log x).1).logsFor svc
      = (if svc = x.service_name then
          (if (st.logsFor x.service_name ++ [x]).length > st.max_logs
           then (st.logsFor x.service_name ++ [x]).tail
           else st.logsFor x.service_name ++ [x])
         else st.logsFor svc) := by
  unfold TelemetryStore.add_log
  dsimp only
  by_cases hsvc : svc = x.service_name
  · subst hsvc
    simp only [if_true, eq_self_iff_true]
    split
    · simp [TelemetryStore.logsFor, dictGet_dictSet_self]
    · simp [TelemetryStore.logsFor, dictGet_dictSet_self]
  · simp only [hsvc, if_false]
    split
    · simp [TelemetryStore.logsFor,
        dictGet_dictSet_ne _ _ hsvc]
    · simp [TelemetryStore.logsFor,
        dictGet_dictSet_ne _ _ hsvc]

theorem metricsFor_add_metric (st : TelemetryStore) (x : MetricDataPoint)
    (svc : String) :
    ((st.add_metric x).1).metricsFor svc
      = (if svc = x.service_name then
          (if (st.metricsFor x.service_name ++ [x]).length > st.max_metrics
           then (st.metricsFor x.service_name ++ [x]).tail
           else st.metricsFor x.service_name ++ [x])
         else st.metricsFor svc) := by
  unfold TelemetryStore.add_metric
  dsimp only
  by_cases hsvc : svc = x.service_name
  · subst hsvc
    simp only [if_true, eq_self_iff_true]
    split
    · simp [TelemetryStore.metricsFor, dictGet_dictSet_self]
    · simp [TelemetryStore.metricsFor, dictGet_dictSet_self]
  · simp only [hsvc, if_false]
    split
    · simp [TelemetryStore.metricsFor,
        dictGet_dictSet_ne _ _ hsvc]
    · simp [TelemetryStore.metricsFor,
        dictGet_dictSet_ne _ _ hsvc]

/-! ### Batch-fold lemmas -/

theorem add_logs_batch_fst_aux (ls : List LogEntry) :
    ∀ (s : TelemetryStore) (ids ids2 : List String),
      (ls.foldl (fun acc log =>
        let r := acc.1.add_log log
        (r.1, acc.2 ++ [r.2])) (s, ids)).1
      = (ls.foldl (fun acc log =>
        let r := acc.1.add_log log
        (r.1, acc.2 ++ [r.2])) (s, ids2)).1 := by
  induction ls with
  | nil => intro s ids ids2; rfl
  | cons x xs ih =>
    intro s ids ids2
    exact ih _ _ _

theorem add_logs_batch_fst_cons (st : TelemetryStore) (x : LogEntry)
    (ls : List LogEntry) :
    (st.add_logs_batch (x :: ls)).1
      = (((st.add_log x).1).add_logs_batch ls).1 := by
  unfold TelemetryStore.add_logs_batch
  exact add_logs_batch_fst_aux ls _ _ _

theorem add_metrics_batch_fst_aux (ms : List MetricDataPoint) :
    ∀ (s : TelemetryStore) (ids ids2 : List String),
      (ms.foldl (fun acc m =>
        let r := acc.1.add_metric m
        (r.1, acc.2 ++ [r.2])) (s, ids)).1
      = (ms.foldl (fun acc m =>
        let r := acc.1.add_metric m
        (r.1, acc.2 ++ [r.2])) (s, ids2)).1 := by
  induction ms with
  | nil => intro s ids ids2; rfl
  | cons x xs ih =>
    intro s ids ids2
    exact ih _ _ _

theorem add_metrics_batch_fst_cons (st : TelemetryStore)
    (x : MetricDataPoint) (ms : List MetricDataPoint) :
    (st.add_metrics_batch (x :: ms)).1
      = (((st.add_metric x).1).add_metrics_batch ms).1 := by
  unfold TelemetryStore.add_metrics_batch
  exact add_metrics_batch_fst_aux ms _ _ _

theorem add_logs_batch_logsFor (ls : List LogEntry) :
    ∀ (st : TelemetryStore) (svc : String) (f : List LogEntry),
      st.logsFor svc = takeLast st.max_logs f →
      ((st.add_logs_batch ls).1).logsFor svc
        = takeLast st.max_logs
            (f ++ ls.filter (fun x => x.service_name == svc)) := by
  induction ls with
  | nil =>
    intro st svc f h
    simpa [TelemetryStore.add_logs_batch] using h
  | cons x xs ih =>
    intro st svc f h
    rw [add_logs_batch_fst_cons]
    have hmax := max_logs_add_log st x
    by_cases hsvc : x.service_name = svc
    · subst hsvc
      have hfil : (x :: xs).filter
            (fun y => y.service_name == x.service_name)
          = x :: xs.filter (fun y => y.service_name == x.service_name) := by
        simp [List.filter_cons]
      have hstep : ((st.add_log x).1).logsFor x.service_name
          = takeLast ((st.add_log x).1).max_logs (f ++ [x]) := by
        rw [logsFor_add_log, hmax, if_pos rfl, h]
        exact (takeLast_append st.max_logs f x).symm
      have := ih ((st.add_log x).1) x.service_name (f ++ [x]) hstep
      rw [hmax] at this
      rw [this, hfil, List.append_assoc]
      rfl
    · have hfil : (x :: xs).filter (fun y => y.service_name == svc)
          = xs.filter (fun y => y.service_name == svc) := by
        simp [List.filter_cons, hsvc]
      have hstep : ((st.add_log x).1).logsFor svc
          = takeLast ((st.add_log x).1).max_logs f := by
        rw [logsFor_add_log, hmax, if_neg (fun hc => hsvc hc.symm)]
        exact h
      have := ih ((st.add_log x).1) svc f hstep
      rw [hmax] at this
      rw [this, hfil]

theorem add_metrics_batch_metricsFor (ms : List MetricDataPoint) :
    ∀ (st : TelemetryStore) (svc : String) (f : List MetricDataPoint),
      st.metricsFor svc = takeLast st.max_metrics f →
      ((st.add_metrics_batch ms).1).metricsFor svc
        = takeLast st.max_metrics
            (f ++ ms.filter (fun x => x.service_name == svc)) := by
  induction ms with
  | nil =>
    intro st svc f h
    simpa [TelemetryStore.add_metrics_batch] using h
  | cons x xs ih =>
    intro st svc f h
    rw [add_metrics_batch_fst_cons]
    have hmax := max_metrics_add_metric st x
    by_cases hsvc : x.service_name = svc
    · subst hsvc
      have hfil : (x :: xs).filter
            (fun y => y.service_name == x.service_name)
          = x :: xs.filter (fun y => y.service_name == x.service_name) := by
        simp [List.filter_cons]
      have hstep : ((st.add_metric x).1).metricsFor x.service_name
          = takeLast ((st.add_metric x).1).max_metrics (f ++ [x]) := by
        rw [metricsFor_add_metric, hmax, if_pos rfl, h]
        exact (takeLast_append st.max_metrics f x).symm
      have := ih ((st.add_metric x).1) x.service_name (f ++ [x]) hstep
      rw [hmax] at this
      rw [this, hfil, List.append_assoc]
      rfl
    · have hfil : (x :: xs).filter (fun y => y.service_name == svc)
          = xs.filter (fun y => y.service_name == svc) := by
        simp [List.filter_cons, hsvc]
      have hstep : ((st.add_metric x).1).metricsFor svc
          = takeLast ((st.add_metric x).1).max_metrics f := by
        rw [metricsFor_add_metric, hmax, if_neg (fun hc => hsvc hc.symm)]
        exact h
      have := ih ((st.add_metric x).1) svc f hstep
      rw [hmax] at this
      rw [this, hfil]

/-! ### Miscellaneous helper lemmas -/

theorem find?_eq_head_filter (p : α → Bool) (l : List α) :
    l.find? p = (l.filter p).head? := by
  induction l with
  | nil => rfl
  | cons x xs ih =>
    by_cases h : p x = true
    · rw [List.find?_cons_of_pos _ h, List.filter_cons_of_pos h]
      rfl
    · rw [List.find?_cons_of_neg _ (by simpa using h),
        List.filter_cons_of_neg (by simpa using h)]
      exact ih

theorem isNone_eq_decide_none (o : Option String) :
    o.isNone = decide (o = none) := by
  cases o <;> simp

theorem pyOrNat_pos (x : Option Nat) (d : Nat) (hd : 0 < d) :
    0 < pyOrNat x d := by
  cases x with
  | none => exact hd
  | some n =>
    simp only [pyOrNat]
    split
    · exact hd
    · omega

theorem eq_of_mem_keys_nodup {d : Dict α} (hnd : (dictKeys d).Nodup)
    {p q : String × α} (hp : p ∈ d) (hq : q ∈ d) (hk : p.1 = q.1) :
    p = q := by
  obtain ⟨a, b⟩ := p
  obtain ⟨c, e⟩ := q
  simp only at hk
  subst hk
  have h1 := dictGet_eq_some_of_mem hnd hp
  have h2 := dictGet_eq_some_of_mem hnd hq
  rw [h1] at h2
  injection h2 with h3
  rw [h3]

theorem dictGet_isSome_of_mem_keys {d : Dict α} {k : String}
    (h : k ∈ dictKeys d) : ∃ v, dictGet d k = some v := by
  induction d with
  | nil => simp [dictKeys] at h
  | cons p rest ih =>
    by_cases hp : p.1 = k
    · exact ⟨p.2, dictGet_cons_pos hp⟩
    · have h2 : k ∈ dictKeys rest := by
        simp only [dictKeys, List.map_cons, List.mem_cons] at h
        rcases h with h | h
        · exact absurd h.symm hp
        · exact h
      rcases ih h2 with ⟨v, hv⟩
      exact ⟨v, by rw [dictGet_cons_neg hp]; exact hv⟩

theorem dictDel_head_eq_tail (d : Dict α) {o : String × α}
    (hnd : (dictKeys d).Nodup) (ho : d.head? = some o) :
    dictDel d o.1 = d.tail := by
  cases d with
  | nil => cases ho
  | cons p rest =>
    injection ho with ho1
    subst ho1
    unfold dictDel
    rw [List.filter_cons_of_neg (by simp)]
    simp only [List.tail_cons]
    apply List.filter_eq_self.mpr
    intro q hq
    have hpk : p.1 ∉ dictKeys rest := by
      simp only [dictKeys, List.map_cons, List.nodup_cons] at hnd
      exact hnd.1
    simp only [bne_iff_ne, ne_eq]
    intro hc
    exact hpk (hc ▸ List.mem_map.mpr ⟨q, hq, rfl⟩)

theorem sweepTrace_eq_true_iff (cutoff : Int) (tr : Trace) :
    sweepTrace cutoff tr = true ↔
      (tr.spans ≠ [] ∧ ∃ mx, maxEnd tr.spans = some mx ∧ mx < cutoff) := by
  unfold sweepTrace
  cases hm : maxEnd tr.spans with
  | none => simp
  | some v => simp [List.isEmpty_iff]

/-! ## Claim theorems -/

/-- Claim C10: constructor arguments supplied as 0 (or omitted) are
replaced by the configuration defaults, so the store can never be built
with a zero retention horizon or a zero capacity bound through these
parameters. -/
theorem init_zero_gives_defaults :
    TelemetryStore.init (some 0) (some 0) (some 0) (some 0)
        = TelemetryStore.init none none none none
    ∧ (TelemetryStore.init (some 0) (some 0) (some 0) (some 0)).retention = 24
    ∧ (TelemetryStore.init (some 0) (some 0) (some 0) (some 0)).max_logs
        = 100000
    ∧ (TelemetryStore.init (some 0) (some 0) (some 0) (some 0)).max_metrics
        = 100000
    ∧ (TelemetryStore.init (some 0) (some 0) (some 0) (some 0)).max_traces
        = 50000
    ∧ (∀ r l m t : Option Nat,
        0 < (TelemetryStore.init r l m t).retention
        ∧ 0 < (TelemetryStore.init r l m t).max_logs
        ∧ 0 < (TelemetryStore.init r l m t).max_metrics
        ∧ 0 < (TelemetryStore.init r l m t).max_traces) := by
  refine ⟨rfl, rfl, rfl, rfl, rfl, ?_⟩
  intro r l m t
  refine ⟨?_, ?_, ?_, ?_⟩
  · have hr := pyOrNat_pos r settings_telemetry_retention_hours
      (by norm_num [settings_telemetry_retention_hours])
    simp only [TelemetryStore.init]
    exact_mod_cast hr
  · exact pyOrNat_pos l settings_max_logs_per_service
      (by norm_num [settings_max_logs_per_service])
  · exact pyOrNat_pos m settings_max_metrics_per_service
      (by norm_num [settings_max_metrics_per_service])
  · exact pyOrNat_pos t settings_max_traces
      (by norm_num [settings_max_traces])

/-- Claim C9: an empty list passed as a services / levels / metric-names
filter behaves exactly like passing no filter at all, for both window
queries. -/
theorem empty_filter_list_is_no_filter
    (st : TelemetryStore) (a b : Int)
    (services levels mns : Option (List String)) :
    st.get_logs_in_window a b (some []) levels
        = st.get_logs_in_window a b none levels
    ∧ st.get_logs_in_window a b services (some [])
        = st.get_logs_in_window a b services none
    ∧ st.get_metrics_in_window a b (some []) mns
        = st.get_metrics_in_window a b none mns
    ∧ st.get_metrics_in_window a b services (some [])
        = st.get_metrics_in_window a b services none := by
  refine ⟨?_, ?_, ?_, ?_⟩ <;>
    simp [TelemetryStore.get_logs_in_window, TelemetryStore.logWindowScan,
      TelemetryStore.get_metrics_in_window, TelemetryStore.metricWindowScan,
      targetServices, levelPass]

/-- Claim C8: `clear` empties all stored telemetry, both by-id indexes and
the service registry, while the cumulative ingested counters keep their
values; `get_stats` afterwards reports zero stored counts and services but
the old counters. -/
theorem clear_drops_data_keeps_counters (st : TelemetryStore)
    (anyId : String) :
    (st.clear).get_stats
        = { logs_ingested := st.logs_ingested
          , metrics_ingested := st.metrics_ingested
          , traces_ingested := st.traces_ingested
          , services_count := 0
          , logs_stored := 0
          , metrics_stored := 0
          , traces_stored := 0 }
    ∧ (st.clear).logs = []
    ∧ (st.clear).metrics = []
    ∧ (st.clear).traces = []
    ∧ (st.clear).logs_by_id = []
    ∧ (st.clear).metrics_by_id = []
    ∧ (st.clear).services = []
    ∧ (st.clear).get_log_by_id anyId = none
    ∧ (st.clear).get_metric_by_id anyId = none
    ∧ (st.clear).get_trace_by_id anyId = none
    ∧ (st.clear).logs_ingested = st.logs_ingested
    ∧ (st.clear).metrics_ingested = st.metrics_ingested
    ∧ (st.clear).traces_ingested = st.traces_ingested := by
  exact ⟨rfl, rfl, rfl, rfl, rfl, rfl, rfl, rfl, rfl, rfl, rfl, rfl, rfl⟩

/-- Claim C7: for a trace built from a non-empty span list, the root
service and the total duration both come from the first parentless span
(`find?`), the duration defaulting to 0 when no parentless span exists,
and the error flag is set exactly when some span has error status. -/
theorem trace_make_derived_fields (tid : String) (spans : List Span)
    (h : spans ≠ []) :
    (Trace.make tid spans).root_service
        = (spans.find? (fun s => decide (s.parent_span_id = none))).map
            (fun s => s.service_name)
    ∧ (Trace.make tid spans).total_duration_ms
        = ((spans.find? (fun s => decide (s.parent_span_id = none))).map
            (fun s => s.duration_ms)).getD 0
    ∧ ((Trace.make tid spans).has_error = true
        ↔ ∃ s ∈ spans, s.status = SpanStatus.error) := by
  have hne : spans.isEmpty = false := by
    cases spans
    · exact absurd rfl h
    · rfl
  have hpred : (fun s : Span => s.parent_span_id.isNone)
      = (fun s : Span => decide (s.parent_span_id = none)) := by
    funext s
    exact isNone_eq_decide_none s.parent_span_id
  simp only [Trace.make, hne, Bool.false_eq_true, if_false]
  refine ⟨?_, ?_, ?_⟩
  · rw [hpred]
  · rw [hpred, find?_eq_head_filter]
    cases hf : spans.filter (fun s => decide (s.parent_span_id = none)) with
    | nil => rfl
    | cons r rest => rfl
  · simp [List.any_eq_true]

/-- Claim C7 witness: the concrete two-span scenario (parentless root of
duration 500 for service "api", error-status child). -/
theorem trace_make_derived_fields_witness :
    ([rootSpan, childSpan] ≠ ([] : List Span))
    ∧ (Trace.make "t" [rootSpan, childSpan]).root_service = some "api"
    ∧ (Trace.make "t" [rootSpan, childSpan]).total_duration_ms = 500
    ∧ (Trace.make "t" [rootSpan, childSpan]).has_error = true := by
  have h := trace_make_derived_fields "t" [rootSpan, childSpan] (by simp)
  refine ⟨by simp, ?_, ?_, ?_⟩
  · rw [h.1]
    rfl
  · rw [h.2.1]
    rfl
  · exact h.2.2.mpr ⟨childSpan, by simp, rfl⟩

/-- Claim C1 (code bug): after the retention sweep removes `sweptLog` and
`sweptMetric` from the per-service stores (retention 1, invoked at time
10, cutoff 9), window queries no longer see them, yet the point lookups
`get_log_by_id` / `get_metric_by_id` still return the removed records:
`cleanup_old_data` never purges the by-id indexes, contradicting the
spec's requirement that swept records look absent. -/
theorem cleanup_leaves_by_id_index_stale :
    ((sweepStore.cleanup_old_data 10).2).logs = 1
    ∧ ((sweepStore.cleanup_old_data 10).2).metrics = 1
    ∧ (sweepStore.cleanup_old_data 10).1.logsFor "svc" = []
    ∧ (sweepStore.cleanup_old_data 10).1.metricsFor "svc" = []
    ∧ (sweepStore.cleanup_old_data 10).1.get_logs_in_window (-100) 100
        none none = []
    ∧ (sweepStore.cleanup_old_data 10).1.get_metrics_in_window (-100) 100
        none none = []
    ∧ (sweepStore.cleanup_old_data 10).1.get_log_by_id "L1" = some sweptLog
    ∧ (sweepStore.cleanup_old_data 10).1.get_metric_by_id "M1"
        = some sweptMetric := by
  exact ⟨rfl, rfl, rfl, rfl, rfl, rfl, rfl, rfl⟩

/-- Claim C2: capacity invariant for logs and metrics.  Starting from any
freshly constructed store, after any batch of appends the per-service list
is exactly the suffix of the most recently appended entries for that
service, of length `min(total appended for the service, cap)`; moreover a
single append on any store grows the list by one when below capacity and
keeps its length (evicting exactly the single oldest entry) when at
capacity. -/
theorem add_capacity_invariant :
    (∀ (r l m t : Option Nat) (ls : List LogEntry) (svc : String),
      (((TelemetryStore.init r l m t).add_logs_batch ls).1).logsFor svc
        = takeLast ((TelemetryStore.init r l m t).max_logs)
            (ls.filter (fun x => x.service_name == svc))
      ∧ ((((TelemetryStore.init r l m t).add_logs_batch ls).1).logsFor
          svc).length
        = min (ls.filter (fun x => x.service_name == svc)).length
            ((TelemetryStore.init r l m t).max_logs))
    ∧ (∀ (r l m t : Option Nat) (ms : List MetricDataPoint) (svc : String),
      (((TelemetryStore.init r l m t).add_metrics_batch ms).1).metricsFor svc
        = takeLast ((TelemetryStore.init r l m t).max_metrics)
            (ms.filter (fun x => x.service_name == svc))
      ∧ ((((TelemetryStore.init r l m t).add_metrics_batch ms).1).metricsFor
          svc).length
        = min (ms.filter (fun x => x.service_name == svc)).length
            ((TelemetryStore.init r l m t).max_metrics))
    ∧ (∀ (s : TelemetryStore) (x : LogEntry),
      (((s.add_log x).1).logsFor x.service_name).length
        = (if s.max_logs < (s.logsFor x.service_name).length + 1
           then (s.logsFor x.service_name).length
           else (s.logsFor x.service_name).length + 1))
    ∧ (∀ (s : TelemetryStore) (x : MetricDataPoint),
      (((s.add_metric x).1).metricsFor x.service_name).length
        = (if s.max_metrics < (s.metricsFor x.service_name).length + 1
           then (s.metricsFor x.service_name).length
           else (s.metricsFor x.service_name).length + 1)) := by
  refine ⟨?_, ?_, ?_, ?_⟩
  · intro r l m t ls svc
    have hbase : (TelemetryStore.init r l m t).logsFor svc
        = takeLast (TelemetryStore.init r l m t).max_logs [] := by
      rw [takeLast_nil]
      rfl
    have hmain := add_logs_batch_logsFor ls (TelemetryStore.init r l m t)
      svc [] hbase
    rw [List.nil_append] at hmain
    refine ⟨hmain, ?_⟩
    rw [hmain, length_takeLast]
  · intro r l m t ms svc
    have hbase : (TelemetryStore.init r l m t).metricsFor svc
        = takeLast (TelemetryStore.init r l m t).max_metrics [] := by
      rw [takeLast_nil]
      rfl
    have hmain := add_metrics_batch_metricsFor ms
      (TelemetryStore.init r l m t) svc [] hbase
    rw [List.nil_append] at hmain
    refine ⟨hmain, ?_⟩
    rw [hmain, length_takeLast]
  · intro s x
    rw [logsFor_add_log, if_pos rfl]
    by_cases hc : (s.logsFor x.service_name ++ [x]).length > s.max_logs
    · have hc2 : s.max_logs < (s.logsFor x.service_name).length + 1 := by
        simpa [List.length_append] using hc
      rw [if_pos hc, if_pos hc2]
      simp [List.length_tail, List.length_append]
    · have hc2 : ¬ s.max_logs < (s.logsFor x.service_name).length + 1 := by
        simp only [List.length_append, List.length_cons, List.length_nil,
          gt_iff_lt] at hc
        omega
      rw [if_neg hc, if_neg hc2]
      simp [List.length_append]
  · intro s x
    rw [metricsFor_add_metric, if_pos rfl]
    by_cases hc : (s.metricsFor x.service_name ++ [x]).length
        > s.max_metrics
    · have hc2 : s.max_metrics < (s.metricsFor x.service_name).length + 1 := by
        simpa [List.length_append] using hc
      rw [if_pos hc, if_pos hc2]
      simp [List.length_tail, List.length_append]
    · have hc2 : ¬ s.max_metrics
          < (s.metricsFor x.service_name).length + 1 := by
        simp only [List.length_append, List.length_cons, List.length_nil,
          gt_iff_lt] at hc
        omega
      rw [if_neg hc, if_neg hc2]
      simp [List.length_append]

/-- Claim C4: `add_trace` never leaves more than `max_traces` traces; a
new id that pushes the count over the cap evicts exactly the
earliest-inserted trace (the head of the insertion-ordered map), and
re-ingesting an existing id overwrites in place without eviction. -/
theorem add_trace_capped_evicts_earliest (st : TelemetryStore) (tr : Trace)
    (hnd : (dictKeys st.traces).Nodup)
    (hle : st.traces.length ≤ st.max_traces) :
    ((st.add_trace tr).1).traces.length ≤ st.max_traces
    ∧ (dictHas st.traces tr.trace_id = true →
        ((st.add_trace tr).1).traces = dictSet st.traces tr.trace_id tr)
    ∧ (dictHas st.traces tr.trace_id = false →
        st.max_traces < st.traces.length + 1 →
        ((st.add_trace tr).1).traces
          = (st.traces ++ [(tr.trace_id, tr)]).tail)
    ∧ (dictHas st.traces tr.trace_id = false →
        st.traces.length + 1 ≤ st.max_traces →
        ((st.add_trace tr).1).traces
          = st.traces ++ [(tr.trace_id, tr)]) := by
  have hres : ((st.add_trace tr).1).traces
      = (if (dictSet st.traces tr.trace_id tr).length > st.max_traces then
          (match (dictSet st.traces tr.trace_id tr).head? with
           | some oldest =>
               dictDel (dictSet st.traces tr.trace_id tr) oldest.1
           | none => dictSet st.traces tr.trace_id tr)
         else dictSet st.traces tr.trace_id tr) := rfl
  by_cases hhas : dictHas st.traces tr.trace_id = true
  · have hset : dictSet st.traces tr.trace_id tr
        = st.traces.map
            (fun p => if p.1 == tr.trace_id then (tr.trace_id, tr) else p) := by
      simp [dictSet, hhas]
    have hlen : (dictSet st.traces tr.trace_id tr).length
        = st.traces.length := by
      rw [hset, List.length_map]
    have hcond : ¬ ((dictSet st.traces tr.trace_id tr).length
        > st.max_traces) := by
      rw [hlen]
      omega
    rw [hres, if_neg hcond]
    refine ⟨by rw [hlen]; exact hle, fun _ => rfl, ?_, ?_⟩
    · intro habs _
      rw [habs] at hhas
      exact absurd hhas (by simp)
    · intro habs _
      rw [habs] at hhas
      exact absurd hhas (by simp)
  · have hhasF : dictHas st.traces tr.trace_id = false := by
      simpa using hhas
    have hset : dictSet st.traces tr.trace_id tr
        = st.traces ++ [(tr.trace_id, tr)] := by
      simp [dictSet, hhasF]
    have hlen : (dictSet st.traces tr.trace_id tr).length
        = st.traces.length + 1 := by
      rw [hset, List.length_append, List.length_cons, List.length_nil]
    have hnotin : tr.trace_id ∉ dictKeys st.traces := by
      rw [← dictHas_iff_mem_keys]
      simp [hhasF]
    by_cases hover : st.max_traces < st.traces.length + 1
    · have hcond : (dictSet st.traces tr.trace_id tr).length
          > st.max_traces := by
        rw [hlen]
        omega
      have hnd2 : (dictKeys (st.traces ++ [(tr.trace_id, tr)])).Nodup := by
        simp only [dictKeys, List.map_append, List.map_cons, List.map_nil]
        rw [List.nodup_append]
        refine ⟨hnd, List.nodup_singleton _, ?_⟩
        intro x hx hx2
        simp only [List.mem_singleton] at hx2
        subst hx2
        exact hnotin hx
      have hhead : ∃ o, (st.traces ++ [(tr.trace_id, tr)]).head? = some o := by
        cases st.traces <;> simp
      obtain ⟨o, ho⟩ := hhead
      have htail : ((st.add_trace tr).1).traces
          = (st.traces ++ [(tr.trace_id, tr)]).tail := by
        rw [hres, if_pos hcond, hset, ho]
        exact dictDel_head_eq_tail (st.traces ++ [(tr.trace_id, tr)]) hnd2 ho
      refine ⟨?_, ?_, fun _ _ => htail, ?_⟩
      · rw [htail, List.length_tail, List.length_append, List.length_cons,
          List.length_nil]
        omega
      · intro habs
        rw [habs] at hhasF
        exact absurd hhasF (by simp)
      · intro _ habs
        omega
    · have hcond : ¬ ((dictSet st.traces tr.trace_id tr).length
          > st.max_traces) := by
        rw [hlen]
        omega
      rw [hres, if_neg hcond, hset]
      refine ⟨?_, ?_, ?_, fun _ _ => rfl⟩
      · rw [List.length_append, List.length_cons, List.length_nil]
        omega
      · intro habs
        rw [habs] at hhasF
      · intro _ habs
        omega

/-- Claim C4 witness: the concrete cap-2 scenario — the store already
holds traces "A" and "B"; adding trace "C" leaves exactly {B, C}. -/
theorem add_trace_capped_evicts_earliest_witness :
    (dictKeys storeAB.traces).Nodup
    ∧ storeAB.traces.length ≤ storeAB.max_traces
    ∧ ((storeAB.add_trace trC).1).traces = [("B", trB), ("C", trC)] := by
  refine ⟨by decide, by decide, ?_⟩
  have h := (add_trace_capped_evicts_earliest storeAB trC (by decide)
    (by decide)).2.2.1 (by decide) (by decide)
  rw [h]
  rfl

/-- Claim C5 counterexample: three logs with identical timestamps appended
in the order `stLog1` (service "b"), `stLog2` (service "a"), `stLog3`
(service "b"); the window query returns them as 1, 3, 2 — the two
equal-timestamp entries from different services (2 and 3) do NOT keep
their global insertion order, because the pre-sort traversal groups by
service key order. -/
theorem window_sort_cross_service_counterexample :
    stabilityStore.get_logs_in_window 0 20 none none
        = [stLog1, stLog3, stLog2]
    ∧ stLog2.timestamp = stLog3.timestamp
    ∧ stabilityStore.get_logs_in_window 0 20 none none
        ≠ [stLog1, stLog2, stLog3] := by
  refine ⟨rfl, rfl, ?_⟩
  decide

/-- Claim C5 (amended): `get_logs_in_window` results are non-decreasing by
timestamp and the sort is stable with respect to the scan traversal order
(services in map key order, each service's entries in insertion order);
equal-timestamp entries of the same service therefore keep insertion
order, but equal-timestamp entries of different services follow service
key order, not global insertion order. -/
theorem window_sort_sorted_and_traversal_stable (st : TelemetryStore)
    (a b : Int) (services levels : Option (List String)) :
    List.Pairwise (fun x y => x.timestamp ≤ y.timestamp)
        (st.get_logs_in_window a b services levels)
    ∧ List.Perm (st.get_logs_in_window a b services levels)
        (st.logWindowScan a b services levels)
    ∧ (∀ c : Int,
        (st.get_logs_in_window a b services levels).filter
            (fun x => decide (x.timestamp = c))
          = (st.logWindowScan a b services levels).filter
            (fun x => decide (x.timestamp = c))) := by
  refine ⟨?_, ?_, ?_⟩
  · exact pairwise_sortByKey (fun x => x.timestamp)
      (st.logWindowScan a b services levels)
  · exact sortByKey_perm (fun x => x.timestamp)
      (st.logWindowScan a b services levels)
  · intro c
    exact filter_sortByKey_key (fun x => x.timestamp) c
      (st.logWindowScan a b services levels)

/-- Claim C6: all three time-window queries treat both window bounds as
inclusive — a stored record is returned exactly when its timestamp `ts`
satisfies `start ≤ ts ≤ end` (and it passes the name filter, for the
metric series). -/
theorem window_bounds_inclusive (st : TelemetryStore) (a b : Int)
    (log : LogEntry) (m mm : MetricDataPoint) (svc name : String)
    (hl : (dictKeys st.logs).Nodup) (hm : (dictKeys st.metrics).Nodup) :
    (log ∈ st.get_logs_in_window a b none none ↔
      ((∃ p ∈ st.logs, log ∈ p.2)
        ∧ a ≤ log.timestamp ∧ log.timestamp ≤ b))
    ∧ (m ∈ st.get_metrics_in_window a b none none ↔
      ((∃ p ∈ st.metrics, m ∈ p.2)
        ∧ a ≤ m.timestamp ∧ m.timestamp ≤ b))
    ∧ (mm ∈ st.get_metric_series svc name a b ↔
      (mm ∈ st.metricsFor svc ∧ mm.metric_name = name
        ∧ a ≤ mm.timestamp ∧ mm.timestamp ≤ b)) := by
  refine ⟨?_, ?_, ?_⟩
  · unfold TelemetryStore.get_logs_in_window
    rw [mem_sortByKey]
    unfold TelemetryStore.logWindowScan targetServices
    simp only [List.mem_flatMap, List.mem_filter, levelPass, Bool.and_true,
      Bool.and_eq_true, decide_eq_true_eq]
    constructor
    · rintro ⟨s, hs, hlog, ha, hb⟩
      rcases dictGet_isSome_of_mem_keys hs with ⟨v, hv⟩
      have hveq : st.logsFor s = v := by
        simp [TelemetryStore.logsFor, hv]
      exact ⟨⟨(s, v), mem_of_dictGet_eq_some hv, hveq ▸ hlog⟩, ha, hb⟩
    · rintro ⟨⟨p, hp, hlog⟩, ha, hb⟩
      refine ⟨p.1, List.mem_map.mpr ⟨p, hp, rfl⟩, ?_, ha, hb⟩
      have hg : dictGet st.logs p.1 = some p.2 :=
        dictGet_eq_some_of_mem hl (by cases p; exact hp)
      simpa [TelemetryStore.logsFor, hg] using hlog
  · unfold TelemetryStore.get_metrics_in_window
    rw [mem_sortByKey]
    unfold TelemetryStore.metricWindowScan targetServices
    simp only [List.mem_flatMap, List.mem_filter, levelPass, Bool.and_true,
      Bool.and_eq_true, decide_eq_true_eq]
    constructor
    · rintro ⟨s, hs, hmp, ha, hb⟩
      rcases dictGet_isSome_of_mem_keys hs with ⟨v, hv⟩
      have hveq : st.metricsFor s = v := by
        simp [TelemetryStore.metricsFor, hv]
      exact ⟨⟨(s, v), mem_of_dictGet_eq_some hv, hveq ▸ hmp⟩, ha, hb⟩
    · rintro ⟨⟨p, hp, hmp⟩, ha, hb⟩
      refine ⟨p.1, List.mem_map.mpr ⟨p, hp, rfl⟩, ?_, ha, hb⟩
      have hg : dictGet st.metrics p.1 = some p.2 :=
        dictGet_eq_some_of_mem hm (by cases p; exact hp)
      simpa [TelemetryStore.metricsFor, hg] using hmp
  · unfold TelemetryStore.get_metric_series
    rw [mem_sortByKey]
    simp only [List.mem_filter, Bool.and_eq_true, decide_eq_true_eq,
      beq_iff_eq]
    tauto

/-- Claim C6 witness: concrete store with one log and one metric at
timestamp 5, window `[5, 5]` — both boundary hypotheses hold and the
theorem applies. -/
theorem window_bounds_inclusive_witness :
    (dictKeys boundStore.logs).Nodup
    ∧ (dictKeys boundStore.metrics).Nodup
    ∧ ((boundLog ∈ boundStore.get_logs_in_window 5 5 none none ↔
        ((∃ p ∈ boundStore.logs, boundLog ∈ p.2)
          ∧ (5 : Int) ≤ boundLog.timestamp
          ∧ boundLog.timestamp ≤ (5 : Int)))
      ∧ (boundMetric ∈ boundStore.get_metrics_in_window 5 5 none none ↔
        ((∃ p ∈ boundStore.metrics, boundMetric ∈ p.2)
          ∧ (5 : Int) ≤ boundMetric.timestamp
          ∧ boundMetric.timestamp ≤ (5 : Int)))
      ∧ (boundMetric ∈ boundStore.get_metric_series "s" "cpu" 5 5 ↔
        (boundMetric ∈ boundStore.metricsFor "s"
          ∧ boundMetric.metric_name = "cpu"
          ∧ (5 : Int) ≤ boundMetric.timestamp
          ∧ boundMetric.timestamp ≤ (5 : Int)))) :=
  ⟨by decide, by decide,
    window_bounds_inclusive boundStore 5 5 boundLog boundMetric boundMetric
      "s" "cpu" (by decide) (by decide)⟩

/-- Claim C3: the sweep at time `now` with cutoff `now - retention`
removes exactly the log/metric entries with timestamp at or below the
cutoff (kept entries stay in relative order), and removes a stored trace
exactly when it has at least one span and the maximum span end time is
strictly below the cutoff; spanless traces survive and absent ids stay
absent. -/
theorem cleanup_removes_exactly_expired (st : TelemetryStore) (now : Int)
    (hnd : (dictKeys st.traces).Nodup) :
    (∀ (svc : String) (lg : LogEntry),
        lg ∈ ((st.cleanup_old_data now).1).logsFor svc ↔
          (lg ∈ st.logsFor svc ∧ now - st.retention < lg.timestamp))
    ∧ (∀ svc : String,
        List.Sublist (((st.cleanup_old_data now).1).logsFor svc)
          (st.logsFor svc))
    ∧ (∀ (svc : String) (mp : MetricDataPoint),
        mp ∈ ((st.cleanup_old_data now).1).metricsFor svc ↔
          (mp ∈ st.metricsFor svc ∧ now - st.retention < mp.timestamp))
    ∧ (∀ svc : String,
        List.Sublist (((st.cleanup_old_data now).1).metricsFor svc)
          (st.metricsFor svc))
    ∧ (∀ (tid : String) (tr : Trace),
        dictGet st.traces tid = some tr →
          (((st.cleanup_old_data now).1).get_trace_by_id tid = some tr ↔
            ¬ (tr.spans ≠ []
              ∧ ∃ mx, maxEnd tr.spans = some mx
                ∧ mx < now - st.retention)))
    ∧ (∀ tid : String,
        dictGet st.traces tid = none →
          ((st.cleanup_old_data now).1).get_trace_by_id tid = none) := by
  have hlogs : ∀ svc, ((st.cleanup_old_data now).1).logsFor svc
      = (st.logsFor svc).filter
          (fun lg => decide (lg.timestamp > now - st.retention)) := by
    intro svc
    unfold TelemetryStore.cleanup_old_data TelemetryStore.logsFor
    dsimp only
    rw [dictGet_map_values]
    cases hx : dictGet st.logs svc with
    | none => rfl
    | some l => rfl
  have hmetrics : ∀ svc, ((st.cleanup_old_data now).1).metricsFor svc
      = (st.metricsFor svc).filter
          (fun mp => decide (mp.timestamp > now - st.retention)) := by
    intro svc
    unfold TelemetryStore.cleanup_old_data TelemetryStore.metricsFor
    dsimp only
    rw [dictGet_map_values]
    cases hx : dictGet st.metrics svc with
    | none => rfl
    | some l => rfl
  have htraces : ((st.cleanup_old_data now).1).traces
      = st.traces.filter
          (fun p => !sweepTrace (now - st.retention) p.2) := by
    unfold TelemetryStore.cleanup_old_data
    dsimp only
    apply List.filter_congr
    intro p hp
    congr 1
    cases hs : sweepTrace (now - st.retention) p.2 with
    | true =>
      have hmem : p.1 ∈ (st.traces.filter
          (fun q => sweepTrace (now - st.retention) q.2)).map
            (fun q => q.1) :=
        List.mem_map.mpr ⟨p, List.mem_filter.mpr ⟨hp, hs⟩, rfl⟩
      simp [hmem]
    | false =>
      have hnomem : p.1 ∉ (st.traces.filter
          (fun q => sweepTrace (now - st.retention) q.2)).map
            (fun q => q.1) := by
        intro hmem
        rcases List.mem_map.mp hmem with ⟨q, hqf, hqeq⟩
        rcases List.mem_filter.mp hqf with ⟨hq, hqs⟩
        have hqp : q = p := eq_of_mem_keys_nodup hnd hq hp hqeq
        rw [hqp] at hqs
        rw [hqs] at hs
        exact absurd hs (by simp)
      simp [hnomem]
  refine ⟨?_, ?_, ?_, ?_, ?_, ?_⟩
  · intro svc lg
    rw [hlogs svc]
    simp [List.mem_filter, gt_iff_lt]
  · intro svc
    rw [hlogs svc]
    exact List.filter_sublist _
  · intro svc mp
    rw [hmetrics svc]
    simp [List.mem_filter, gt_iff_lt]
  · intro svc
    rw [hmetrics svc]
    exact List.filter_sublist _
  · intro tid tr hget
    have hmem : (tid, tr) ∈ st.traces := mem_of_dictGet_eq_some hget
    have hsub : List.Sublist
        (st.traces.filter (fun p => !sweepTrace (now - st.retention) p.2))
        st.traces := List.filter_sublist _
    have hnd2 : (dictKeys (st.traces.filter
        (fun p => !sweepTrace (now - st.retention) p.2))).Nodup := by
      have hmap : List.Sublist
          (dictKeys (st.traces.filter
            (fun p => !sweepTrace (now - st.retention) p.2)))
          (dictKeys st.traces) := by
        unfold dictKeys
        exact List.Sublist.map (fun p => p.1) hsub
      exact List.Nodup.sublist hmap hnd
    unfold TelemetryStore.get_trace_by_id
    rw [htraces, dictGet_some_iff hnd2, List.mem_filter]
    simp only [hmem, true_and, Bool.not_eq_true']
    rw [← sweepTrace_eq_true_iff (now - st.retention) tr]
    exact Bool.eq_false_iff
  · intro tid hnone
    unfold TelemetryStore.get_trace_by_id
    rw [htraces]
    unfold dictGet at hnone ⊢
    have hfind : st.traces.find? (fun p => p.1 == tid) = none := by
      cases hf : st.traces.find? (fun p => p.1 == tid) with
      | none => rfl
      | some q =>
        rw [hf] at hnone
        simp at hnone
    rw [List.find?_eq_none] at hfind
    have hfind2 : (st.traces.filter
        (fun p => !sweepTrace (now - st.retention) p.2)).find?
          (fun p => p.1 == tid) = none :=
      List.find?_eq_none.mpr
        (fun q hq => hfind q (List.mem_of_mem_filter hq))
    rw [hfind2]
    rfl

/-- Claim C3 witness: concrete store (retention 1) with one old log, one
old metric and the two-span trace "t"; the sweep hypotheses hold and the
theorem applies at time 10. -/
theorem cleanup_removes_exactly_expired_witness :
    (dictKeys sweepStoreT.traces).Nodup
    ∧ ((∀ (svc : String) (lg : LogEntry),
        lg ∈ ((sweepStoreT.cleanup_old_data 10).1).logsFor svc ↔
          (lg ∈ sweepStoreT.logsFor svc
            ∧ 10 - sweepStoreT.retention < lg.timestamp))
    ∧ (∀ svc : String,
        List.Sublist (((sweepStoreT.cleanup_old_data 10).1).logsFor svc)
          (sweepStoreT.logsFor svc))
    ∧ (∀ (svc : String) (mp : MetricDataPoint),
        mp ∈ ((sweepStoreT.cleanup_old_data 10).1).metricsFor svc ↔
          (mp ∈ sweepStoreT.metricsFor svc
            ∧ 10 - sweepStoreT.retention < mp.timestamp))
    ∧ (∀ svc : String,
        List.Sublist (((sweepStoreT.cleanup_old_data 10).1).metricsFor svc)
          (sweepStoreT.metricsFor svc))
    ∧ (∀ (tid : String) (tr : Trace),
        dictGet sweepStoreT.traces tid = some tr →
          (((sweepStoreT.cleanup_old_data 10).1).get_trace_by_id tid
              = some tr ↔
            ¬ (tr.spans ≠ []
              ∧ ∃ mx, maxEnd tr.spans = some mx
                ∧ mx < 10 - sweepStoreT.retention)))
    ∧ (∀ tid : String,
        dictGet sweepStoreT.traces tid = none →
          ((sweepStoreT.cleanup_old_data 10).1).get_trace_by_id tid
            = none)) :=
  ⟨by decide, cleanup_removes_exactly_expired sweepStoreT 10 (by decide)⟩

end RCA
